import Mathlib

/-!
Shallow embedding of the docvision line-consolidation core
(`lib/geometer.js`, `lib/logician.js`, and the line-analysis module that
exports `analyseLines`, `consolidateLinesSchemed`, `consolidateLines`,
`consolidateLinesSchemedBySlope`, `consolidateLinesBySlope`).

Conventions of the embedding:
* JS numbers are modelled as real numbers (`ℝ`).  The source only divides
  by quantities that are nonzero on the executions the theorems below are
  about; where a division by zero could occur in JS (producing `NaN` or
  `Infinity`) the fact is noted in a comment at the definition and the
  theorems avoid depending on the value of such an expression.
* JS arrays of numbers are modelled as `List ℝ`; out-of-range indexing
  (which yields `undefined` in JS) is modelled with `List.getD _ _ 0`; all
  call sites in the source index within bounds, so the default is never
  exercised by the facts proved here.
* A JS function that can return `null` instead of a number (or array) is
  modelled with `Option`.  The JS relational comparison `x <= y` applied
  to `null` coerces `null` to `0` (`ToNumber(null) = 0`); the helper
  `jsLeNum` below embeds exactly that semantics.
* Boolean-returning JS functions built from `if (...) return true; ...;
  return false;` cascades are modelled as `Prop`-valued disjunctions /
  conjunctions of the tested conditions, in source order.
-/

namespace Docvision

open Real

/-- JS `Array.prototype.slice(s, e)` on a numeric array. -/
def jsSlice (l : List ℝ) (s e : ℕ) : List ℝ :=
  (l.drop s).take (e - s)

/-- JS relational `x <= y` where `x` may be `null`:
`ToNumber(null) = 0`, so `null <= y` holds iff `0 <= y`. -/
def jsLeNum (x : Option ℝ) (y : ℝ) : Prop :=
  x.getD 0 ≤ y

/-- `logician.vectorBinaryOp(op, v0, v1)`: returns `null` when the two
vectors differ in length; otherwise combines componentwise (note that the
source computes `v1[i] op v0[i]`, i.e. the second argument is the left
operand). Only the `"+"`, `"-"`, `"*"`, `"max"`, `"min"` cases are
representable on numbers; the callers in scope use only `"-"` and `"+"`. -/
noncomputable def vectorBinaryOp (op : String) (v0 v1 : List ℝ) : Option (List ℝ) :=
  if v0.length = v1.length then
    some (List.zipWith
      (fun a b =>
        if op = "+" then b + a
        else if op = "-" then b - a
        else if op = "*" then b * a
        else if op = "max" then max b a
        else if op = "min" then min b a
        else 0)  -- default case pushes `null` in JS; unreachable for the ops used here
      v0 v1)
  else none

/-- `geometer.vectorMagnitude(v0)`: `null` in, `null` out;
otherwise the square root of the sum of the squared components. -/
noncomputable def vectorMagnitude (v0 : Option (List ℝ)) : Option ℝ :=
  v0.map (fun l => Real.sqrt ((l.map (fun c => c * c)).sum))

/-- `geometer.vectorDifference(v0, v1) = vectorBinaryOp("-", v0, v1)`. -/
noncomputable def vectorDifference (v0 v1 : List ℝ) : Option (List ℝ) :=
  vectorBinaryOp "-" v0 v1

/-- `geometer.vectorDistance(v0, v1) = vectorMagnitude(vectorDifference(v0, v1))`;
`null` when the argument lists differ in length. -/
noncomputable def vectorDistance (v0 v1 : List ℝ) : Option ℝ :=
  vectorMagnitude (vectorDifference v0 v1)

/-- `geometer.vector2dProject(v0, v1)`: projection of `v1` onto `v0`.
In JS a zero `v0` makes the denominator `0` (giving `NaN`); no fact below
depends on the value in that case. -/
noncomputable def vector2dProject (v0 v1 : List ℝ) : List ℝ :=
  let a0 := v0.getD 0 0
  let a1 := v0.getD 1 0
  let b0 := v1.getD 0 0
  let b1 := v1.getD 1 0
  [a0 * (a0 * b0 + a1 * b1) / (a1 * a1 + a0 * a0),
   a1 * (a0 * b0 + a1 * b1) / (a1 * a1 + a0 * a0)]

/-- `geometer.line2dProjectPoint(baseLine, projectionPoint)`. -/
noncomputable def line2dProjectPoint (baseLine projectionPoint : List ℝ) : List ℝ :=
  let relativeProjection := vector2dProject
    [baseLine.getD 2 0 - baseLine.getD 0 0, baseLine.getD 3 0 - baseLine.getD 1 0]
    [projectionPoint.getD 0 0 - baseLine.getD 0 0,
     projectionPoint.getD 1 0 - baseLine.getD 1 0]
  [relativeProjection.getD 0 0 + baseLine.getD 0 0,
   relativeProjection.getD 1 0 + baseLine.getD 1 0]

/-- `geometer.space1dHasPoint(line, point)`: the two `if`s of the source. -/
def space1dHasPoint (line point : List ℝ) : Prop :=
  (point.getD 0 0 ≥ line.getD 0 0 ∧ point.getD 0 0 ≤ line.getD 1 0) ∨
  (point.getD 0 0 ≤ line.getD 0 0 ∧ point.getD 0 0 ≥ line.getD 1 0)

/-- `geometer.space2dHasPoint(line, point)`. -/
def space2dHasPoint (line point : List ℝ) : Prop :=
  space1dHasPoint [line.getD 0 0, line.getD 2 0] [point.getD 0 0] ∧
  space1dHasPoint [line.getD 1 0, line.getD 3 0] [point.getD 1 0]

/-- `geometer.line2dProjectedPointWithinTolerance(line, point, tol)`:
project the point onto the line; the result holds when the projection
falls inside the segment's bounding box and the point is within `tol`
of its projection. -/
noncomputable def line2dProjectedPointWithinTolerance
    (line point : List ℝ) (tol : ℝ) : Prop :=
  space2dHasPoint line (line2dProjectPoint line point) ∧
  jsLeNum (vectorDistance point (line2dProjectPoint line point)) tol

/-- A schemed (annotated) line as produced by `analyseLines`:
`angle`, `length`, the original flat `coordinates`, optional `xint` /
`yint`, and the input-position `rank`. -/
structure SchemedLine where
  angle : ℝ
  length : ℝ
  coordinates : List ℝ
  xint : Option ℝ
  yint : Option ℝ
  rank : ℕ

/-- Accumulator for `geometer.linesSchemedToFlatlineByBounds`: the four
bound variables start as `null` and `signednessNet` starts at `0`. -/
structure BoundsAcc where
  minX : Option ℝ
  maxX : Option ℝ
  minY : Option ℝ
  maxY : Option ℝ
  signednessNet : ℤ

/-- One iteration of the `lines.forEach` body of
`linesSchemedToFlatlineByBounds`.  The source guards every bound update
with `if (minX == null || minX < minX)` (and likewise for the other
three), comparing the accumulator with itself, so a bound is only ever
written while it is still `null`: the emitted bounds are those of the
first line.  The faithful embedding keeps the vacuous self-comparison. -/
noncomputable def boundsStep (acc : BoundsAcc) (line : SchemedLine) : BoundsAcc :=
  let c := line.coordinates
  let minXT := min (c.getD 0 0) (c.getD 2 0)
  let minYT := min (c.getD 1 0) (c.getD 3 0)
  let maxXT := max (c.getD 0 0) (c.getD 2 0)
  let maxYT := max (c.getD 1 0) (c.getD 3 0)
  let signednessNet' :=
    if ((c.getD 2 0 - c.getD 0 0) < 0 ∧ (c.getD 3 0 - c.getD 1 0) > 0) ∨
       ((c.getD 2 0 - c.getD 0 0) > 0 ∧ (c.getD 3 0 - c.getD 1 0) < 0) then
      acc.signednessNet - 1
    else
      acc.signednessNet + 1
  { minX := match acc.minX with
      | none => some minXT
      | some m => if m < m then some minXT else some m
    minY := match acc.minY with
      | none => some minYT
      | some m => if m < m then some minYT else some m
    maxX := match acc.maxX with
      | none => some maxXT
      | some m => if m > m then some maxXT else some m
    maxY := match acc.maxY with
      | none => some maxYT
      | some m => if m > m then some maxYT else some m
    signednessNet := signednessNet' }

/-- `geometer.linesSchemedToFlatlineByBounds(lines, signed)`.
On an empty input the four bounds stay `null` and the JS function returns
`[null, null, null, null]`, modelled as `none` (all four bounds are set
together on the first iteration, so they are `null` only simultaneously).
The caller in scope passes `1` for `signed`, modelled as `true`. -/
noncomputable def linesSchemedToFlatlineByBounds
    (lines : List SchemedLine) (signed : Bool) : Option (List ℝ) :=
  let acc := lines.foldl boundsStep ⟨none, none, none, none, 0⟩
  match acc.minX, acc.minY, acc.maxX, acc.maxY with
  | some minX, some minY, some maxX, some maxY =>
      if signed ∧ acc.signednessNet < 0 then
        some [minX, maxY, maxX, minY]
      else
        some [minX, minY, maxX, maxY]
  | _, _, _, _ => none

/-- `geometer.lineGroupAndSegmentAdjacent(baseGroup, testLineFull, gap)`:
the cascade of `if (...) return true` checks, in source order.
Note the endpoint-proximity checks of the source: two of them take
`baseGroupBounds.slice(2, 2)`, which is the *empty* array (the segment
from index 2 to index 2), so `vectorDistance` returns `null` there and
the JS comparison `null <= gap` holds whenever `0 <= gap`.
When the base group is empty, `baseGroupBounds` is `[null, null, null,
null]`; all arithmetic comparisons on its entries are `NaN`-false in JS,
but the two `slice(2, 2)` checks still compare `null <= gap`, so the
function then returns exactly `0 <= gap`. -/
noncomputable def lineGroupAndSegmentAdjacent
    (baseGroup : List SchemedLine) (testLineFull : SchemedLine) (gap : ℝ) : Prop :=
  match linesSchemedToFlatlineByBounds baseGroup true with
  | some baseGroupBounds =>
      let testLine := testLineFull.coordinates
      line2dProjectedPointWithinTolerance baseGroupBounds
        [testLine.getD 0 0, testLine.getD 1 0] gap ∨
      line2dProjectedPointWithinTolerance baseGroupBounds
        [testLine.getD 2 0, testLine.getD 3 0] gap ∨
      jsLeNum (vectorDistance (jsSlice baseGroupBounds 0 2) (jsSlice testLine 0 2)) gap ∨
      jsLeNum (vectorDistance (jsSlice baseGroupBounds 2 2) (jsSlice testLine 0 2)) gap ∨
      jsLeNum (vectorDistance (jsSlice baseGroupBounds 0 2) (jsSlice testLine 2 4)) gap ∨
      jsLeNum (vectorDistance (jsSlice baseGroupBounds 2 2) (jsSlice testLine 2 4)) gap
  | none =>
      jsLeNum none gap ∨ jsLeNum none gap

/-- `logician.scalarWithinTolerance(a, b, t)`:
`|b - a| < max (|a|, |b|) * t`. -/
def scalarWithinTolerance (a b t : ℝ) : Prop :=
  |b - a| < max |a| |b| * t

/-- `Math.acos(-1)` — the `mathPi` constant computed at the top of
`analyseLines` and `consolidateLinesSchemed`. -/
noncomputable def mathPi : ℝ := Real.arccos (-1)

/-- The length computation of `analyseLines`:
`Math.sqrt(Math.pow(x1-x0, 2) + Math.pow(y1-y0, 2))`. -/
noncomputable def lineLength (c : List ℝ) : ℝ :=
  Real.sqrt ((c.getD 2 0 - c.getD 0 0) ^ 2 + (c.getD 3 0 - c.getD 1 0) ^ 2)

/-- The angle computation of `analyseLines`: `asin` of `dy / length` when
`|dx| > |dy|`, else `acos` of `dx / length`.  For a zero-length segment
JS divides `0 / 0` (giving `NaN`, hence a `NaN` angle); the real-valued
embedding gives `arccos 0` there, and no theorem below depends on the
angle value of a zero-length segment. -/
noncomputable def lineAngle (c : List ℝ) : ℝ :=
  if |c.getD 2 0 - c.getD 0 0| > |c.getD 3 0 - c.getD 1 0| then
    Real.arcsin ((c.getD 3 0 - c.getD 1 0) / lineLength c)
  else
    Real.arccos ((c.getD 2 0 - c.getD 0 0) / lineLength c)

/-- The guard under which `analyseLines` computes an x-intercept:
`angle0 > mathPi / 8 && angle0 < mathPi * 7 / 8`. -/
noncomputable def xintCond (angle0 : ℝ) : Prop :=
  angle0 > mathPi / 8 ∧ angle0 < mathPi * 7 / 8

/-- The guard under which `analyseLines` computes a y-intercept:
`(angle0 < 3π/8 && angle0 > -3π/8) || (angle0 > 5π/8 && angle0 < 11π/8)`. -/
noncomputable def yintCond (angle0 : ℝ) : Prop :=
  (angle0 < mathPi * 3 / 8 ∧ angle0 > mathPi * (-3) / 8) ∨
  (angle0 > mathPi * 5 / 8 ∧ angle0 < mathPi * 11 / 8)

open Classical in
/-- The body of the `lines.forEach` of `analyseLines`, producing one
schemed line from a flat line and its input position. -/
noncomputable def analyseOne (lineIndex : ℕ) (lineTemp : List ℝ) : SchemedLine :=
  let angle0 := lineAngle lineTemp
  { angle := angle0
    length := lineLength lineTemp
    coordinates := lineTemp
    xint :=
      if xintCond angle0 then
        some (lineTemp.getD 0 0 - lineTemp.getD 1 0 *
          ((lineTemp.getD 2 0 - lineTemp.getD 0 0) / (lineTemp.getD 3 0 - lineTemp.getD 1 0)))
      else none
    yint :=
      if yintCond angle0 then
        some (lineTemp.getD 1 0 - lineTemp.getD 0 0 *
          ((lineTemp.getD 3 0 - lineTemp.getD 1 0) / (lineTemp.getD 2 0 - lineTemp.getD 0 0)))
      else none
    rank := lineIndex }

/-- `analyseLines(lines)`: one schemed line per flat line, with `rank`
equal to the input position. -/
noncomputable def analyseLines (lines : List (List ℝ)) : List SchemedLine :=
  lines.enum.map (fun p => analyseOne p.1 p.2)

open Classical in
/-- First-fit binning shared by the three grouping loops of the source
(`consolidateLinesSchemed` twice, `consolidateLinesSchemedBySlope` once):
scan the existing groups in creation order, append the item to the first
group satisfying the match predicate (`groupDest` is kept `null` once set,
so later groups only run vacuous checks), and append a new singleton
group at the end when no group matches. -/
noncomputable def firstFit {α : Type} (p : List α → α → Prop) :
    List (List α) → α → List (List α)
  | [], s => [[s]]
  | g :: gs, s => if p g s then (g ++ [s]) :: gs else g :: firstFit p gs s

/-- The `forEach` drivers of the grouping loops: fold `firstFit` over the
input items starting from no groups. -/
noncomputable def groupLines {α : Type} (p : List α → α → Prop) (ls : List α) :
    List (List α) :=
  ls.foldl (firstFit p) []

/-- The collinearity match of `consolidateLinesSchemed`: angles within
`rtol` (strict) and a shared axis intercept within `dtol`.  The
`typeof(... ) == "number"` guards of the source are the `Option`
pattern-matches here (a missing intercept never matches). -/
def linesCollinear (rtol dtol : ℝ) (schemedLine prospectiveLineMatch : SchemedLine) : Prop :=
  |schemedLine.angle - prospectiveLineMatch.angle| < rtol ∧
  ((match schemedLine.yint, prospectiveLineMatch.yint with
    | some ya, some yb => |ya - yb| ≤ dtol
    | _, _ => False) ∨
   (match schemedLine.xint, prospectiveLineMatch.xint with
    | some xa, some xb => |xa - xb| ≤ dtol
    | _, _ => False))

/-- The first grouping stage of `consolidateLinesSchemed` (`lineGroups`):
first-fit binning where a group matches when it contains a member
collinear with the candidate within the tolerances. -/
noncomputable def collinearityGroups (schemedLines : List SchemedLine) (rtol dtol : ℝ) :
    List (List SchemedLine) :=
  groupLines (fun g s => ∃ m ∈ g, linesCollinear rtol dtol s m) schemedLines

/-- The adjacency clustering of one collinearity group
(`adjacencyGroupsTemp`): first-fit binning with
`geometer.lineGroupAndSegmentAdjacent` against the cluster built so far.
On a further match the source only records an entry in `adjacencyMerges`;
that list feeds `mergedGroups`, which the source itself marks "The result
is not presently used", so the clusters that reach the output are exactly
the first-fit clusters. -/
noncomputable def adjacencyClusters (dtol : ℝ) (lineGroup : List SchemedLine) :
    List (List SchemedLine) :=
  groupLines (fun c s => lineGroupAndSegmentAdjacent c s dtol) lineGroup

/-- The `adjacencyGroups` accumulation of `consolidateLinesSchemed`: for
each collinearity group, push its (non-empty, per the JS truthiness check
`if (adjacencyGroupTemp.length)`) adjacency clusters onto the global
list. -/
noncomputable def adjacencyGroupsAll (schemedLines : List SchemedLine) (rtol dtol : ℝ) :
    List (List SchemedLine) :=
  (collinearityGroups schemedLines rtol dtol).foldl
    (fun acc g => acc ++ (adjacencyClusters dtol g).filter (fun c => c.length != 0)) []

/-- Accumulator of the synthesis loop of `consolidateLinesSchemed`:
bounding-box extrema (starting `null`), the angle of the last member
seen, and the aggregate rank. -/
structure BigLineAcc where
  xMin : Option ℝ
  xMax : Option ℝ
  yMin : Option ℝ
  yMax : Option ℝ
  lastAngle : Option ℝ
  rank : ℤ

/-- One iteration of the inner `lineGroup.forEach` of the synthesis loop:
extend the bounding box (these updates compare against the accumulator
correctly, unlike `linesSchemedToFlatlineByBounds`), remember the angle,
and add `schemedLineCount - rank` to the aggregate rank. -/
noncomputable def bigLineStep (schemedLineCount : ℕ) (acc : BigLineAcc)
    (schemedLine : SchemedLine) : BigLineAcc :=
  let c := schemedLine.coordinates
  let txMin := min (c.getD 0 0) (c.getD 2 0)
  let tyMin := min (c.getD 1 0) (c.getD 3 0)
  let txMax := max (c.getD 0 0) (c.getD 2 0)
  let tyMax := max (c.getD 1 0) (c.getD 3 0)
  { xMin := match acc.xMin with
      | none => some txMin
      | some m => if txMin < m then some txMin else some m
    yMin := match acc.yMin with
      | none => some tyMin
      | some m => if tyMin < m then some tyMin else some m
    xMax := match acc.xMax with
      | none => some txMax
      | some m => if txMax > m then some txMax else some m
    yMax := match acc.yMax with
      | none => some tyMax
      | some m => if tyMax > m then some tyMax else some m
    lastAngle := some schemedLine.angle
    rank := acc.rank + ((schemedLineCount : ℤ) - (schemedLine.rank : ℤ)) }

/-- The orientation test of the synthesis loop:
`(a > 0 && a < π/2) || (a > π && a < 3π/2) || (a > -π && a < -π/2)`. -/
noncomputable def bigAngleCond (lastAngle : ℝ) : Prop :=
  (lastAngle > 0 ∧ lastAngle < mathPi / 2) ∨
  (lastAngle > mathPi ∧ lastAngle < mathPi * 3 / 2) ∨
  (lastAngle > -mathPi ∧ lastAngle < -(mathPi / 2))

open Classical in
/-- Synthesis of one adjacency cluster into a rank/line pair
(the `bigLines.push` of `consolidateLinesSchemed`): `none` when the
cluster is empty or its bounding box is a single point. -/
noncomputable def bigLineOfGroup (schemedLineCount : ℕ) (lineGroup : List SchemedLine) :
    Option (ℤ × List ℝ) :=
  let acc := lineGroup.foldl (bigLineStep schemedLineCount)
    ⟨none, none, none, none, none, 0⟩
  match acc.lastAngle, acc.xMin, acc.yMin, acc.xMax, acc.yMax with
  | some lastAngle, some xMin, some yMin, some xMax, some yMax =>
      if xMin < xMax ∨ yMin < yMax then
        if bigAngleCond lastAngle then
          some (acc.rank, [xMin, yMin, xMax, yMax])
        else
          some (acc.rank, [xMin, yMax, xMax, yMin])
      else none
  | _, _, _, _, _ => none

/-- The `bigLines.push` step of the synthesis loop: push the rank/line
pair when the cluster yields one. -/
noncomputable def pushBigLine (schemedLineCount : ℕ) (acc : List (ℤ × List ℝ))
    (lineGroup : List SchemedLine) : List (ℤ × List ℝ) :=
  match bigLineOfGroup schemedLineCount lineGroup with
  | some bl => acc ++ [bl]
  | none => acc

/-- The rank/line pairs emitted by `consolidateLinesSchemed` before its
final sort, in adjacency-group order. -/
noncomputable def bigLinesOf (schemedLines : List SchemedLine) (rtol dtol : ℝ) :
    List (ℤ × List ℝ) :=
  (adjacencyGroupsAll schemedLines rtol dtol).foldl
    (pushBigLine schemedLines.length) []

/-- The final ordering step of `consolidateLinesSchemed`:
`bigLines.slice().sort(function (a, b) { return a["rank"] < b["rank"]; })`.
The comparator returns a *boolean*; `Array.prototype.sort` converts the
comparator result with `ToNumber`, so it sees `0` or `1` and never a
negative value.  A sort implementation that only moves elements on a
negative comparator result (V8/Node's TimSort: its run detection treats
any array as one ascending run because the comparator is never `< 0`, and
its binary insertion never moves a pivot left for the same reason)
therefore returns the array unchanged; the embedding models the step as
the identity on the (copied) list. -/
def jsSortRankPairs (bigLines : List (ℤ × List ℝ)) : List (ℤ × List ℝ) :=
  bigLines

/-- `consolidateLinesSchemed(schemedLines, rtol, dtol, dtolp)`:
collinearity grouping, adjacency clustering, synthesis, the (inert, see
`jsSortRankPairs`) rank sort, and projection to the bare lines.
`dtolp` is accepted but never read by this path, as in the source. -/
noncomputable def consolidateLinesSchemed (schemedLines : List SchemedLine)
    (rtol dtol dtolp : ℝ) : List (List ℝ) :=
  (jsSortRankPairs (bigLinesOf schemedLines rtol dtol)).map (fun a => a.2)

/-- `consolidateLines(lines, rtol, dtol, dtolp) =
consolidateLinesSchemed(analyseLines(lines), ...)`. -/
noncomputable def consolidateLines (lines : List (List ℝ)) (rtol dtol dtolp : ℝ) :
    List (List ℝ) :=
  consolidateLinesSchemed (analyseLines lines) rtol dtol dtolp

/-- The match predicate of `consolidateLinesSchemedBySlope`: angles within
`rtol` (strict) and lengths proportionally close.  The
`"length" in schemedLine` membership tests of the source always succeed
on records produced by `analyseLines`, where the field is mandatory. -/
def slopeLengthMatch (rtol dtolp : ℝ) (schemedLine prospectiveLineMatch : SchemedLine) : Prop :=
  |schemedLine.angle - prospectiveLineMatch.angle| < rtol ∧
  scalarWithinTolerance schemedLine.length prospectiveLineMatch.length dtolp

/-- `consolidateLinesSchemedBySlope(schemedLines, rtol, dtol, dtolp)`:
first-fit binning by the slope/length match; `dtol` is accepted but never
read, as in the source. -/
noncomputable def consolidateLinesSchemedBySlope (schemedLines : List SchemedLine)
    (rtol dtol dtolp : ℝ) : List (List SchemedLine) :=
  groupLines (fun g s => ∃ m ∈ g, slopeLengthMatch rtol dtolp s m) schemedLines

/-- `consolidateLinesBySlope(lines, rtol, dtol, dtolp)`. -/
noncomputable def consolidateLinesBySlope (lines : List (List ℝ)) (rtol dtol dtolp : ℝ) :
    List (List SchemedLine) :=
  consolidateLinesSchemedBySlope (analyseLines lines) rtol dtol dtolp

/-- The adjacency test as the specification words it (its §4.3, claim
C1), for comparison with the source's `lineGroupAndSegmentAdjacent`:
(a) perpendicular-projection containment of each candidate endpoint
within the reference bounding line's span and within `gap` of it, or
(b) direct distance between each of the candidate's endpoints and each
of the bounding line's *two* endpoints at most `gap`.  It differs from
the source only in the second and fourth endpoint checks, which here
take the bounding line's end point `slice(2, 4)` where the source has
the empty `slice(2, 2)`. -/
noncomputable def specLineGroupAndSegmentAdjacent
    (baseGroup : List SchemedLine) (testLineFull : SchemedLine) (gap : ℝ) : Prop :=
  match linesSchemedToFlatlineByBounds baseGroup true with
  | some baseGroupBounds =>
      let testLine := testLineFull.coordinates
      line2dProjectedPointWithinTolerance baseGroupBounds
        [testLine.getD 0 0, testLine.getD 1 0] gap ∨
      line2dProjectedPointWithinTolerance baseGroupBounds
        [testLine.getD 2 0, testLine.getD 3 0] gap ∨
      jsLeNum (vectorDistance (jsSlice baseGroupBounds 0 2) (jsSlice testLine 0 2)) gap ∨
      jsLeNum (vectorDistance (jsSlice baseGroupBounds 2 4) (jsSlice testLine 0 2)) gap ∨
      jsLeNum (vectorDistance (jsSlice baseGroupBounds 0 2) (jsSlice testLine 2 4)) gap ∨
      jsLeNum (vectorDistance (jsSlice baseGroupBounds 2 4) (jsSlice testLine 2 4)) gap
  | none => False

/-! ### Concrete schemed-line fixtures

These are the annotated forms of the raw test segments used by the
scenario claims; the lemmas `analyseOne_horizontal` /
`analyseLines_horizontal_vertical_eval` below connect them to
`analyseLines`. -/

/-- The annotation of `(0, 0, 10, 0)` at input position `0`. -/
noncomputable def seg0_0_10_0 : SchemedLine := ⟨0, 10, [0, 0, 10, 0], none, some 0, 0⟩

/-- The annotation of `(12, 0, 20, 0)` at input position `1`. -/
noncomputable def seg12_0_20_0 : SchemedLine := ⟨0, 8, [12, 0, 20, 0], none, some 0, 1⟩

/-- The annotation of `(0, 5, 10, 5)` at input position `r`. -/
noncomputable def seg0_5_10_5 (r : ℕ) : SchemedLine := ⟨0, 10, [0, 5, 10, 5], none, some 5, r⟩

/-- The annotation of `(0, 0, 15, 0)` at input position `1`. -/
noncomputable def seg0_0_15_0 : SchemedLine := ⟨0, 15, [0, 0, 15, 0], none, some 0, 1⟩

/-- The annotation of `(100, 100, 200, 100)` at input position `1`: a
horizontal segment far away from `(0, 0, 10, 0)`. -/
noncomputable def seg100_100_200_100 : SchemedLine :=
  ⟨0, 100, [100, 100, 200, 100], none, some 100, 1⟩

/-! ### General lemmas about the embedded definitions -/

/-- `mathPi` is `π`. -/
theorem mathPi_eq_pi : mathPi = Real.pi := Real.arccos_neg_one

/-- `jsLeNum` on `null` is `0 ≤ ·`. -/
theorem jsLeNum_none (y : ℝ) : jsLeNum none y ↔ 0 ≤ y := Iff.rfl

/-- `slice(2, 2)` of any array is empty. -/
theorem jsSlice_two_two (l : List ℝ) : jsSlice l 2 2 = [] := by
  simp [jsSlice]

/-- `vectorDistance` from the empty vector compares (as JS `<=`) below
any `gap ≥ 0`: against another empty vector the distance is
`sqrt 0 = 0`; against a non-empty vector the length check of
`vectorBinaryOp` fails, the distance is `null`, and JS coerces `null`
to `0` in the comparison. -/
theorem jsLeNum_vectorDistance_nil (l : List ℝ) (gap : ℝ) (h : 0 ≤ gap) :
    jsLeNum (vectorDistance [] l) gap := by
  cases l with
  | nil =>
      simp [jsLeNum, vectorDistance, vectorDifference, vectorBinaryOp, vectorMagnitude, h]
  | cons a l =>
      simp [jsLeNum, vectorDistance, vectorDifference, vectorBinaryOp, vectorMagnitude, h]

/-- Whatever the base group and test line, `lineGroupAndSegmentAdjacent`
holds as soon as the gap is non-negative: the third and fifth endpoint
checks of the source take `slice(2, 2)` of the bounds (an empty array),
get a `null` distance, and JS compares `null <= gap` as `0 <= gap`. -/
theorem lineGroupAndSegmentAdjacent_of_nonneg_gap
    (baseGroup : List SchemedLine) (testLineFull : SchemedLine) (gap : ℝ)
    (h : 0 ≤ gap) : lineGroupAndSegmentAdjacent baseGroup testLineFull gap := by
  unfold lineGroupAndSegmentAdjacent
  cases hb : linesSchemedToFlatlineByBounds baseGroup true with
  | none => exact Or.inl h
  | some b =>
      refine Or.inr (Or.inr (Or.inr (Or.inl ?_)))
      rw [jsSlice_two_two]
      exact jsLeNum_vectorDistance_nil _ gap h

/-- Binning one item by first fit only adds that item to the multiset of
binned items. -/
theorem firstFit_flatten_perm {α : Type} (p : List α → α → Prop)
    (gs : List (List α)) (s : α) :
    (firstFit p gs s).flatten.Perm (s :: gs.flatten) := by
  induction gs with
  | nil => simp [firstFit]
  | cons g gs ih =>
      by_cases h : p g s
      · simp only [firstFit, if_pos h, List.flatten_cons, List.append_assoc,
          List.singleton_append]
        exact List.perm_middle
      · simp only [firstFit, if_neg h, List.flatten_cons]
        exact (ih.append_left g).trans List.perm_middle

/-- Folding first-fit binning over a list of items appends exactly those
items (as a multiset) to the already-binned ones. -/
theorem foldl_firstFit_flatten_perm {α : Type} (p : List α → α → Prop)
    (ls : List α) (acc : List (List α)) :
    (ls.foldl (firstFit p) acc).flatten.Perm (acc.flatten ++ ls) := by
  induction ls generalizing acc with
  | nil => simp
  | cons s ls ih =>
      simp only [List.foldl_cons]
      refine ((ih _).trans ((firstFit_flatten_perm p acc s).append_right ls)).trans ?_
      simp only [List.cons_append]
      exact List.perm_middle.symm

/-- The bins produced by `groupLines` hold the input items exactly. -/
theorem groupLines_flatten_perm {α : Type} (p : List α → α → Prop) (ls : List α) :
    (groupLines p ls).flatten.Perm ls := by
  simpa using foldl_firstFit_flatten_perm p ls []

/-- First fit never creates an empty bin. -/
theorem firstFit_ne_nil {α : Type} (p : List α → α → Prop)
    (gs : List (List α)) (s : α) (h : ∀ g ∈ gs, g ≠ []) :
    ∀ g ∈ firstFit p gs s, g ≠ [] := by
  induction gs with
  | nil =>
      intro g hg
      simp only [firstFit, List.mem_singleton] at hg
      simp [hg]
  | cons g0 gs ih =>
      intro g hg
      by_cases hp : p g0 s
      · simp only [firstFit, if_pos hp, List.mem_cons] at hg
        rcases hg with hg | hg
        · simp [hg]
        · exact h g (List.mem_cons_of_mem g0 hg)
      · simp only [firstFit, if_neg hp, List.mem_cons] at hg
        rcases hg with hg | hg
        · exact hg ▸ h g0 (List.mem_cons_self g0 gs)
        · exact ih (fun g' hg' => h g' (List.mem_cons_of_mem g0 hg')) g hg

/-- No bin produced by `groupLines` is empty. -/
theorem groupLines_ne_nil {α : Type} (p : List α → α → Prop) (ls : List α) :
    ∀ g ∈ groupLines p ls, g ≠ [] := by
  have main : ∀ (ls : List α) (acc : List (List α)), (∀ g ∈ acc, g ≠ []) →
      ∀ g ∈ ls.foldl (firstFit p) acc, g ≠ [] := by
    intro ls
    induction ls with
    | nil => intro acc hacc; simpa using hacc
    | cons s ls ih =>
        intro acc hacc
        simp only [List.foldl_cons]
        exact ih _ (firstFit_ne_nil p acc s hacc)
  exact main ls [] (by simp)

/-- A list of non-empty lists has no more entries than its flattening. -/
theorem length_le_length_flatten {α : Type} (L : List (List α))
    (h : ∀ g ∈ L, g ≠ []) : L.length ≤ L.flatten.length := by
  induction L with
  | nil => simp
  | cons g L ih =>
      have hg : g ≠ [] := h g (List.mem_cons_self g L)
      have hg1 : 1 ≤ g.length := by
        cases g with
        | nil => exact absurd rfl hg
        | cons a g => simp
      have := ih (fun g' hg' => h g' (List.mem_cons_of_mem g hg'))
      simp only [List.length_cons, List.flatten_cons, List.length_append]
      omega

/-- Length of an append-accumulating fold. -/
theorem foldl_append_length {α β : Type} (f : β → List α) (L : List β) (acc : List α) :
    (L.foldl (fun a g => a ++ f g) acc).length =
      acc.length + (L.map (fun g => (f g).length)).sum := by
  induction L generalizing acc with
  | nil => simp
  | cons g L ih =>
      simp only [List.foldl_cons, List.map_cons, List.sum_cons, ih,
        List.length_append]
      omega

/-- A fold that pushes at most one element per step grows by at most the
number of steps. -/
theorem foldl_pushBigLine_length_le (n : ℕ)
    (L : List (List SchemedLine)) (acc0 : List (ℤ × List ℝ)) :
    (L.foldl (pushBigLine n) acc0).length ≤ acc0.length + L.length := by
  induction L generalizing acc0 with
  | nil => simp
  | cons g L ih =>
      simp only [List.foldl_cons, List.length_cons]
      have hstep : (pushBigLine n acc0 g).length ≤ acc0.length + 1 := by
        unfold pushBigLine
        cases bigLineOfGroup n g with
        | none => simp
        | some bl => simp
      exact (ih (pushBigLine n acc0 g)).trans (by omega)

/-- The adjacency clustering of one group yields at most one cluster per
member. -/
theorem adjacencyClusters_length_le (dtol : ℝ) (g : List SchemedLine) :
    (adjacencyClusters dtol g).length ≤ g.length := by
  unfold adjacencyClusters
  have hne := groupLines_ne_nil
    (fun c s => lineGroupAndSegmentAdjacent c s dtol) g
  have hlen := length_le_length_flatten _ hne
  have hperm := (groupLines_flatten_perm
    (fun c s => lineGroupAndSegmentAdjacent c s dtol) g).length_eq
  omega

/-- There are at most as many adjacency groups as input segments. -/
theorem adjacencyGroupsAll_length_le (schemedLines : List SchemedLine) (rtol dtol : ℝ) :
    (adjacencyGroupsAll schemedLines rtol dtol).length ≤ schemedLines.length := by
  unfold adjacencyGroupsAll
  rw [foldl_append_length]
  simp only [List.length_nil, zero_add]
  have h1 : ((collinearityGroups schemedLines rtol dtol).map
        (fun g => ((adjacencyClusters dtol g).filter (fun c => c.length != 0)).length)).sum ≤
      ((collinearityGroups schemedLines rtol dtol).map List.length).sum := by
    refine List.sum_le_sum ?_
    intro g hg
    exact le_trans (List.length_filter_le _ _) (adjacencyClusters_length_le dtol g)
  have h2 : ((collinearityGroups schemedLines rtol dtol).map List.length).sum =
      schemedLines.length := by
    rw [← List.length_flatten]
    exact (groupLines_flatten_perm _ schemedLines).length_eq
  omega

/-- `analyseLines` annotates one-for-one. -/
theorem analyseLines_length (lines : List (List ℝ)) :
    (analyseLines lines).length = lines.length := by
  simp [analyseLines]

/-- `analyseLines` keeps every input line's coordinates, in order. -/
theorem analyseLines_coordinates (lines : List (List ℝ)) :
    (analyseLines lines).map (fun s => s.coordinates) = lines := by
  unfold analyseLines
  rw [List.map_map]
  have hc : ((fun s : SchemedLine => s.coordinates) ∘
      fun p : ℕ × List ℝ => analyseOne p.1 p.2) = Prod.snd := by
    funext p
    rfl
  rw [hc]
  exact List.enum_map_snd lines

/-! ### Evaluation lemmas for concrete inputs -/

/-- Evaluate a square root from a known square. -/
theorem sqrt_eq_of_sq (a b : ℝ) (hb : 0 ≤ b) (h : b ^ 2 = a) :
    Real.sqrt a = b := by
  rw [← h]
  exact Real.sqrt_sq hb

/-- The x-intercept window rejects angle `0`. -/
theorem xintCond_not_zero : ¬ xintCond 0 := by
  intro h
  have hπ := Real.pi_pos
  rw [xintCond, mathPi_eq_pi] at h
  nlinarith [h.1]

/-- The y-intercept window accepts angle `0`. -/
theorem yintCond_zero : yintCond 0 := by
  have hπ := Real.pi_pos
  rw [yintCond, mathPi_eq_pi]
  left
  constructor <;> nlinarith

/-- The x-intercept window accepts angle `π / 2`. -/
theorem xintCond_pi_div_two : xintCond (Real.pi / 2) := by
  have hπ := Real.pi_pos
  rw [xintCond, mathPi_eq_pi]
  constructor <;> nlinarith

/-- The y-intercept window rejects angle `π / 2`. -/
theorem yintCond_not_pi_div_two : ¬ yintCond (Real.pi / 2) := by
  intro h
  have hπ := Real.pi_pos
  rw [yintCond, mathPi_eq_pi] at h
  rcases h with h | h
  · nlinarith [h.1]
  · nlinarith [h.1]

/-- The synthesis orientation test rejects angle `0` (so a cluster whose
last member is horizontal gets the `[xMin, yMax, xMax, yMin]` diagonal). -/
theorem bigAngleCond_not_zero : ¬ bigAngleCond 0 := by
  intro h
  have hπ := Real.pi_pos
  rw [bigAngleCond, mathPi_eq_pi] at h
  rcases h with h | h | h
  · exact absurd h.1 (lt_irrefl 0)
  · nlinarith [h.1]
  · nlinarith [h.2]

/-- `analyseLines` on a horizontal segment with distinct x-coordinates:
angle `0`, length `|x1 - x0|`, a y-intercept equal to the common
y-coordinate, and no x-intercept. -/
theorem analyseOne_horizontal (i : ℕ) (x0 y0 x1 : ℝ) (h : x0 ≠ x1) :
    analyseOne i [x0, y0, x1, y0] =
      ⟨0, |x1 - x0|, [x0, y0, x1, y0], none, some y0, i⟩ := by
  have hangle : lineAngle [x0, y0, x1, y0] = 0 := by
    unfold lineAngle
    rw [if_pos]
    · simp
    · simpa [sub_ne_zero] using fun hx => h hx.symm
  have hlen : lineLength [x0, y0, x1, y0] = |x1 - x0| := by
    unfold lineLength
    simp [Real.sqrt_sq_eq_abs]
  simp only [analyseOne]
  rw [hangle, hlen, if_neg xintCond_not_zero, if_pos yintCond_zero]
  simp

/-- `analyseLines` on a vertical segment with distinct y-coordinates:
angle `π / 2`, length `|y1 - y0|`, an x-intercept equal to the common
x-coordinate, and no y-intercept. -/
theorem analyseOne_vertical (i : ℕ) (x0 y0 y1 : ℝ) (h : y0 ≠ y1) :
    analyseOne i [x0, y0, x0, y1] =
      ⟨Real.pi / 2, |y1 - y0|, [x0, y0, x0, y1], some x0, none, i⟩ := by
  have hangle : lineAngle [x0, y0, x0, y1] = Real.pi / 2 := by
    unfold lineAngle
    rw [if_neg]
    · simp [Real.arccos_zero]
    · simp
  have hlen : lineLength [x0, y0, x0, y1] = |y1 - y0| := by
    unfold lineLength
    simp [Real.sqrt_sq_eq_abs]
  simp only [analyseOne]
  rw [hangle, hlen, if_pos xintCond_pi_div_two, if_neg yintCond_not_pi_div_two]
  simp

/-! ### Grouping on one- and two-element inputs -/

/-- Unfolding `firstFit` when there is no existing bin. -/
theorem firstFit_nil {α : Type} (p : List α → α → Prop) (s : α) :
    firstFit p [] s = [[s]] := rfl

/-- Unfolding `firstFit` when the first bin matches. -/
theorem firstFit_cons_pos {α : Type} (p : List α → α → Prop)
    (g : List α) (gs : List (List α)) (s : α) (h : p g s) :
    firstFit p (g :: gs) s = (g ++ [s]) :: gs := by
  simp [firstFit, h]

/-- Unfolding `firstFit` when the first bin does not match. -/
theorem firstFit_cons_neg {α : Type} (p : List α → α → Prop)
    (g : List α) (gs : List (List α)) (s : α) (h : ¬ p g s) :
    firstFit p (g :: gs) s = g :: firstFit p gs s := by
  simp [firstFit, h]

/-- A single item always forms a single bin. -/
theorem groupLines_singleton {α : Type} (p : List α → α → Prop) (s : α) :
    groupLines p [s] = [[s]] := rfl

/-- Two items that match end up in one bin. -/
theorem groupLines_pair_pos {α : Type} (p : List α → α → Prop) (s1 s2 : α)
    (h : p [s1] s2) : groupLines p [s1, s2] = [[s1, s2]] := by
  simp [groupLines, firstFit, h]

/-- Two items that do not match end up in two bins. -/
theorem groupLines_pair_neg {α : Type} (p : List α → α → Prop) (s1 s2 : α)
    (h : ¬ p [s1] s2) : groupLines p [s1, s2] = [[s1], [s2]] := by
  simp [groupLines, firstFit, h]

/-- Adjacency clustering of a one-element group. -/
theorem adjacencyClusters_singleton (dtol : ℝ) (s : SchemedLine) :
    adjacencyClusters dtol [s] = [[s]] := rfl

/-- `adjacencyGroupsAll` on a single segment: one cluster holding it. -/
theorem adjacencyGroupsAll_singleton (s : SchemedLine) (rtol dtol : ℝ) :
    adjacencyGroupsAll [s] rtol dtol = [[s]] := by
  unfold adjacencyGroupsAll
  rw [show collinearityGroups [s] rtol dtol = [[s]] from rfl]
  simp [List.filter]

/-- Synthesis of the singleton cluster `{seg0_0_10_0}` with total count
`1`: the box is `(0,0)-(10,0)`, the last angle is `0` (so the
`[xMin, yMax, xMax, yMin]` diagonal is taken), and the aggregate rank is
`1 - 0 = 1`. -/
theorem bigLineOfGroup_seg0_singleton :
    bigLineOfGroup 1 [seg0_0_10_0] = some (1, [0, 0, 10, 0]) := by
  unfold bigLineOfGroup bigLineStep seg0_0_10_0
  simp only [List.foldl_cons, List.foldl_nil, List.getD_cons_zero,
    List.getD_cons_succ]
  norm_num [min_def, max_def]

/-- The reference bounding line of the one-member group
`{seg0_0_10_0}` is `(0, 0, 10, 0)`. -/
theorem bounds_seg0 :
    linesSchemedToFlatlineByBounds [seg0_0_10_0] true = some [0, 0, 10, 0] := by
  unfold linesSchemedToFlatlineByBounds boundsStep seg0_0_10_0
  simp only [List.foldl_cons, List.foldl_nil, List.getD_cons_zero,
    List.getD_cons_succ]
  norm_num [min_def, max_def]

/-- A square root of a sum of squares exceeds `1` once the radicand
does. -/
theorem one_lt_sqrt_of_one_lt (v : ℝ) (h : 1 < v) : ¬ Real.sqrt v ≤ 1 := by
  rw [not_le]
  have h2 : (1 : ℝ) < 2 ^ 2 := by norm_num
  nlinarith [Real.sq_sqrt (by linarith : (0:ℝ) ≤ v), Real.sqrt_nonneg v]

/-- Consolidating the single segment `(0,0,10,0)` returns it unchanged,
whatever the three tolerances are: no step of the pipeline consults them
for a one-element input. -/
theorem consolidateLinesSchemed_seg0_any_tol (rtol dtol dtolp : ℝ) :
    consolidateLinesSchemed [seg0_0_10_0] rtol dtol dtolp = [[0, 0, 10, 0]] := by
  unfold consolidateLinesSchemed
  have h1 : bigLinesOf [seg0_0_10_0] rtol dtol = [(1, [0, 0, 10, 0])] := by
    unfold bigLinesOf
    rw [adjacencyGroupsAll_singleton]
    simp only [List.foldl_cons, List.foldl_nil, List.length_singleton]
    unfold pushBigLine
    rw [bigLineOfGroup_seg0_singleton]
    simp
  rw [h1]
  rfl

/-- `analyseLines` on the raw segment `(0,0,10,0)` yields the fixture
`seg0_0_10_0`. -/
theorem analyseLines_0_0_10_0 : analyseLines [[0, 0, 10, 0]] = [seg0_0_10_0] := by
  simp only [analyseLines, List.enum, List.enumFrom, List.map_cons, List.map_nil]
  rw [analyseOne_horizontal 0 0 0 10 (by norm_num)]
  unfold seg0_0_10_0
  norm_num

/-- `vectorDistance` between two two-dimensional points. -/
theorem vectorDistance_pair (a b c d : ℝ) :
    vectorDistance [a, b] [c, d] =
      some (Real.sqrt ((c - a) * (c - a) + (d - b) * (d - b))) := by
  have hmp : ("-" : String) ≠ "+" := by decide
  have hmm : ("-" : String) = "-" := rfl
  unfold vectorDistance vectorDifference vectorBinaryOp vectorMagnitude
  norm_num [hmp, hmm]

/-- Unfold `specLineGroupAndSegmentAdjacent` on a group with known
bounds. -/
theorem specAdjacent_of_bounds (baseGroup : List SchemedLine)
    (testLineFull : SchemedLine) (gap : ℝ) (b : List ℝ)
    (hb : linesSchemedToFlatlineByBounds baseGroup true = some b) :
    specLineGroupAndSegmentAdjacent baseGroup testLineFull gap ↔
      (line2dProjectedPointWithinTolerance b
        [testLineFull.coordinates.getD 0 0, testLineFull.coordinates.getD 1 0] gap ∨
       line2dProjectedPointWithinTolerance b
        [testLineFull.coordinates.getD 2 0, testLineFull.coordinates.getD 3 0] gap ∨
       jsLeNum (vectorDistance (jsSlice b 0 2) (jsSlice testLineFull.coordinates 0 2)) gap ∨
       jsLeNum (vectorDistance (jsSlice b 2 4) (jsSlice testLineFull.coordinates 0 2)) gap ∨
       jsLeNum (vectorDistance (jsSlice b 0 2) (jsSlice testLineFull.coordinates 2 4)) gap ∨
       jsLeNum (vectorDistance (jsSlice b 2 4) (jsSlice testLineFull.coordinates 2 4)) gap) := by
  unfold specLineGroupAndSegmentAdjacent
  rw [hb]

/-- `analyseLines` on the two raw segments of scenario A/B. -/
theorem analyseLines_scenarioAB :
    analyseLines [[0, 0, 10, 0], [12, 0, 20, 0]] = [seg0_0_10_0, seg12_0_20_0] := by
  simp only [analyseLines, List.enum, List.enumFrom, List.map_cons, List.map_nil]
  rw [analyseOne_horizontal 0 0 0 10 (by norm_num),
    analyseOne_horizontal 1 12 0 20 (by norm_num)]
  unfold seg0_0_10_0 seg12_0_20_0
  norm_num

/-- The two scenario segments are collinear within `rtol = 1`,
`dtol = 1`: equal angles `0` and equal y-intercepts `0`. -/
theorem scenarioAB_collinear :
    ∃ m ∈ [seg0_0_10_0], linesCollinear 1 1 seg12_0_20_0 m := by
  refine ⟨seg0_0_10_0, List.mem_singleton_self _, ?_, Or.inl ?_⟩
  · unfold seg0_0_10_0 seg12_0_20_0
    norm_num
  · unfold seg0_0_10_0 seg12_0_20_0
    norm_num

/-- The collinearity grouping of the scenario pair: one group. -/
theorem collinearityGroups_scenarioAB :
    collinearityGroups [seg0_0_10_0, seg12_0_20_0] 1 1 = [[seg0_0_10_0, seg12_0_20_0]] := by
  unfold collinearityGroups
  exact groupLines_pair_pos _ _ _ scenarioAB_collinear

/-- The adjacency clustering of the scenario pair at `dtol = 1`: a single
cluster, because `lineGroupAndSegmentAdjacent` accepts everything at a
non-negative gap — even though the actual gap between the two segments
is `2 > 1`. -/
theorem adjacencyGroupsAll_scenarioAB :
    adjacencyGroupsAll [seg0_0_10_0, seg12_0_20_0] 1 1 = [[seg0_0_10_0, seg12_0_20_0]] := by
  unfold adjacencyGroupsAll
  rw [collinearityGroups_scenarioAB]
  have hadj : adjacencyClusters 1 [seg0_0_10_0, seg12_0_20_0] =
      [[seg0_0_10_0, seg12_0_20_0]] := by
    unfold adjacencyClusters
    exact groupLines_pair_pos _ _ _
      (lineGroupAndSegmentAdjacent_of_nonneg_gap _ _ 1 (by norm_num))
  simp [hadj, List.filter]

/-- Synthesis of the merged scenario cluster (total count `2`): bounding
box `(0,0)-(20,0)`, aggregate rank `(2-0) + (2-1) = 3`, output line
`(0, 0, 20, 0)`. -/
theorem bigLineOfGroup_scenarioAB :
    bigLineOfGroup 2 [seg0_0_10_0, seg12_0_20_0] = some (3, [0, 0, 20, 0]) := by
  unfold bigLineOfGroup bigLineStep seg0_0_10_0 seg12_0_20_0
  simp only [List.foldl_cons, List.foldl_nil, List.getD_cons_zero,
    List.getD_cons_succ]
  norm_num [min_def, max_def]

/-- `(0,5,10,5)` never joins the collinearity group of `(0,0,10,0)` at
`dtol = 1`: the angles agree but the y-intercepts differ by `5`. -/
theorem seg5_not_collinear_seg0 (r : ℕ) :
    ¬ ∃ m ∈ [seg0_0_10_0], linesCollinear 1 1 (seg0_5_10_5 r) m := by
  intro hex
  rcases hex with ⟨m, hm, hmatch⟩
  rw [List.mem_singleton] at hm
  subst hm
  rcases hmatch.2 with h2 | h2 <;>
    · unfold seg0_0_10_0 seg0_5_10_5 at h2
      norm_num at h2

/-- Two copies of `(0,5,10,5)` are collinear within any positive
tolerances `1`, `1`. -/
theorem seg5_collinear_seg5 (r r' : ℕ) :
    linesCollinear 1 1 (seg0_5_10_5 r) (seg0_5_10_5 r') := by
  refine ⟨?_, Or.inl ?_⟩ <;>
    · unfold seg0_5_10_5
      norm_num

/-- Collinearity grouping of `(0,0,10,0)` followed by three copies of
`(0,5,10,5)`: the first segment keeps its own group, the three others
share a second group. -/
theorem collinearityGroups_rankDemo :
    collinearityGroups
      [seg0_0_10_0, seg0_5_10_5 1, seg0_5_10_5 2, seg0_5_10_5 3] 1 1 =
      [[seg0_0_10_0], [seg0_5_10_5 1, seg0_5_10_5 2, seg0_5_10_5 3]] := by
  have hAB : ∃ m ∈ [seg0_5_10_5 1], linesCollinear 1 1 (seg0_5_10_5 2) m :=
    ⟨seg0_5_10_5 1, List.mem_singleton_self _, seg5_collinear_seg5 2 1⟩
  have hAC : ∃ m ∈ [seg0_5_10_5 1, seg0_5_10_5 2], linesCollinear 1 1 (seg0_5_10_5 3) m :=
    ⟨seg0_5_10_5 1, List.mem_cons_self _ _, seg5_collinear_seg5 3 1⟩
  unfold collinearityGroups groupLines
  simp only [List.foldl_cons, List.foldl_nil]
  rw [firstFit_nil,
    firstFit_cons_neg _ _ _ _ (seg5_not_collinear_seg0 1), firstFit_nil,
    firstFit_cons_neg _ _ _ _ (seg5_not_collinear_seg0 2),
    firstFit_cons_pos _ [seg0_5_10_5 1] _ (seg0_5_10_5 2) hAB]
  simp only [List.singleton_append]
  rw [firstFit_cons_neg _ _ _ _ (seg5_not_collinear_seg0 3),
    firstFit_cons_pos _ [seg0_5_10_5 1, seg0_5_10_5 2] _ (seg0_5_10_5 3) hAC]
  rfl

/-- Adjacency clustering of the three stacked `(0,5,10,5)` copies at
`dtol = 1`: one cluster (here genuinely coincident segments, though the
broken adjacency test would merge anything). -/
theorem adjacencyClusters_rankDemo :
    adjacencyClusters 1 [seg0_5_10_5 1, seg0_5_10_5 2, seg0_5_10_5 3] =
      [[seg0_5_10_5 1, seg0_5_10_5 2, seg0_5_10_5 3]] := by
  have hAB : lineGroupAndSegmentAdjacent [seg0_5_10_5 1] (seg0_5_10_5 2) 1 :=
    lineGroupAndSegmentAdjacent_of_nonneg_gap _ _ 1 (by norm_num)
  have hAC : lineGroupAndSegmentAdjacent [seg0_5_10_5 1, seg0_5_10_5 2]
      (seg0_5_10_5 3) 1 :=
    lineGroupAndSegmentAdjacent_of_nonneg_gap _ _ 1 (by norm_num)
  unfold adjacencyClusters groupLines
  simp only [List.foldl_cons, List.foldl_nil]
  rw [firstFit_nil, firstFit_cons_pos _ [seg0_5_10_5 1] _ (seg0_5_10_5 2) hAB]
  simp only [List.singleton_append]
  rw [firstFit_cons_pos _ [seg0_5_10_5 1, seg0_5_10_5 2] _ (seg0_5_10_5 3) hAC]
  rfl

/-- The adjacency groups of the rank demonstration input, in creation
order: the cluster of the rank-`0` segment first. -/
theorem adjacencyGroupsAll_rankDemo :
    adjacencyGroupsAll
      [seg0_0_10_0, seg0_5_10_5 1, seg0_5_10_5 2, seg0_5_10_5 3] 1 1 =
      [[seg0_0_10_0], [seg0_5_10_5 1, seg0_5_10_5 2, seg0_5_10_5 3]] := by
  unfold adjacencyGroupsAll
  rw [collinearityGroups_rankDemo]
  simp only [List.foldl_cons, List.foldl_nil]
  rw [adjacencyClusters_singleton, adjacencyClusters_rankDemo]
  rfl

/-- Synthesis of the singleton cluster `{seg0_0_10_0}` with total count
`4`: aggregate rank `4 - 0 = 4`. -/
theorem bigLineOfGroup_seg0_four :
    bigLineOfGroup 4 [seg0_0_10_0] = some (4, [0, 0, 10, 0]) := by
  unfold bigLineOfGroup bigLineStep seg0_0_10_0
  simp only [List.foldl_cons, List.foldl_nil, List.getD_cons_zero,
    List.getD_cons_succ]
  norm_num [min_def, max_def]

/-- Synthesis of the stacked cluster with total count `4`: aggregate
rank `(4-1) + (4-2) + (4-3) = 6` and line `(0, 5, 10, 5)`. -/
theorem bigLineOfGroup_seg5_triple :
    bigLineOfGroup 4 [seg0_5_10_5 1, seg0_5_10_5 2, seg0_5_10_5 3] =
      some (6, [0, 5, 10, 5]) := by
  unfold bigLineOfGroup bigLineStep seg0_5_10_5
  simp only [List.foldl_cons, List.foldl_nil, List.getD_cons_zero,
    List.getD_cons_succ]
  norm_num [min_def, max_def]

/-- If `z² < 1/2` then `arcsin z` lies strictly between `-π/4` and
`π/4`. -/
theorem arcsin_between_of_sq_lt_half (z : ℝ) (h : z ^ 2 < 1 / 2) :
    -(Real.pi / 4) < Real.arcsin z ∧ Real.arcsin z < Real.pi / 4 := by
  have hπ := Real.pi_pos
  have hz : |z| < Real.sqrt 2 / 2 := by
    apply abs_lt_of_sq_lt_sq _ (by positivity)
    rw [div_pow, Real.sq_sqrt (by norm_num : (0:ℝ) ≤ 2)]
    norm_num
    linarith
  obtain ⟨hz1, hz2⟩ := abs_lt.1 hz
  constructor
  · rw [lt_arcsin_iff_sin_lt' ⟨by linarith, by linarith⟩, Real.sin_neg,
      Real.sin_pi_div_four]
    linarith
  · rw [Real.arcsin_lt_iff_lt_sin' ⟨by linarith, by linarith⟩,
      Real.sin_pi_div_four]
    linarith

/-- If `z² ≤ 1/2` then `arcsin z` lies between `-π/4` and `π/4`. -/
theorem arcsin_between_of_sq_le_half (z : ℝ) (h : z ^ 2 ≤ 1 / 2) :
    -(Real.pi / 4) ≤ Real.arcsin z ∧ Real.arcsin z ≤ Real.pi / 4 := by
  have hπ := Real.pi_pos
  have hz : |z| ≤ Real.sqrt 2 / 2 := by
    apply abs_le_of_sq_le_sq _ (by positivity)
    rw [div_pow, Real.sq_sqrt (by norm_num : (0:ℝ) ≤ 2)]
    norm_num
    linarith
  obtain ⟨hz1, hz2⟩ := abs_le.1 hz
  constructor
  · rw [Real.le_arcsin_iff_sin_le' ⟨by linarith, by linarith⟩, Real.sin_neg,
      Real.sin_pi_div_four]
    linarith
  · rw [Real.arcsin_le_iff_le_sin' ⟨by linarith, by linarith⟩,
      Real.sin_pi_div_four]
    linarith

/-! ### Claim theorems -/

/-- C9: for every finite raw segment of nonzero length, the annotated
angle lies in `(-π/4, 3π/4]`, the arcsin branch (`|dx| > |dy|`) always
produces a y-intercept, the arccos branch always produces an
x-intercept, and hence at least one intercept is always present for
collinearity matching. -/
theorem analyseOne_angle_range_and_intercepts (i : ℕ) (x0 y0 x1 y1 : ℝ)
    (h : x1 ≠ x0 ∨ y1 ≠ y0) :
    (-(Real.pi / 4) < (analyseOne i [x0, y0, x1, y1]).angle ∧
     (analyseOne i [x0, y0, x1, y1]).angle ≤ 3 * Real.pi / 4) ∧
    (|x1 - x0| > |y1 - y0| → (analyseOne i [x0, y0, x1, y1]).yint.isSome) ∧
    (¬ |x1 - x0| > |y1 - y0| → (analyseOne i [x0, y0, x1, y1]).xint.isSome) ∧
    ((analyseOne i [x0, y0, x1, y1]).xint.isSome ∨
     (analyseOne i [x0, y0, x1, y1]).yint.isSome) := by
  classical
  have hπ := Real.pi_pos
  have hL : lineLength [x0, y0, x1, y1] =
      Real.sqrt ((x1 - x0) ^ 2 + (y1 - y0) ^ 2) := by
    unfold lineLength
    simp
  have hsum : 0 < (x1 - x0) ^ 2 + (y1 - y0) ^ 2 := by
    rcases h with h | h
    · have h2 : (x1 - x0) ^ 2 > 0 := sq_pos_iff.2 (sub_ne_zero.2 h)
      nlinarith [sq_nonneg (y1 - y0)]
    · have h2 : (y1 - y0) ^ 2 > 0 := sq_pos_iff.2 (sub_ne_zero.2 h)
      nlinarith [sq_nonneg (x1 - x0)]
  have hLpos : 0 < lineLength [x0, y0, x1, y1] := by
    rw [hL]
    exact Real.sqrt_pos.2 hsum
  have hL2 : lineLength [x0, y0, x1, y1] ^ 2 = (x1 - x0) ^ 2 + (y1 - y0) ^ 2 := by
    rw [hL]
    exact Real.sq_sqrt (by positivity)
  have hxint : (analyseOne i [x0, y0, x1, y1]).xint =
      if xintCond (lineAngle [x0, y0, x1, y1]) then
        some (x0 - y0 * ((x1 - x0) / (y1 - y0))) else none := by
    simp [analyseOne]
  have hyint : (analyseOne i [x0, y0, x1, y1]).yint =
      if yintCond (lineAngle [x0, y0, x1, y1]) then
        some (y0 - x0 * ((y1 - y0) / (x1 - x0))) else none := by
    simp [analyseOne]
  have hangle : (analyseOne i [x0, y0, x1, y1]).angle = lineAngle [x0, y0, x1, y1] :=
    rfl
  by_cases hbr : |x1 - x0| > |y1 - y0|
  · -- arcsin branch
    have ha : lineAngle [x0, y0, x1, y1] =
        Real.arcsin ((y1 - y0) / lineLength [x0, y0, x1, y1]) := by
      unfold lineAngle
      rw [if_pos]
      · simp
      · simpa using hbr
    have hz2 : ((y1 - y0) / lineLength [x0, y0, x1, y1]) ^ 2 < 1 / 2 := by
      rw [div_pow, hL2, div_lt_iff hsum]
      have hsq : (y1 - y0) ^ 2 < (x1 - x0) ^ 2 := sq_lt_sq.2 hbr
      linarith
    obtain ⟨hlo, hhi⟩ := arcsin_between_of_sq_lt_half _ hz2
    have hyc : yintCond (lineAngle [x0, y0, x1, y1]) := by
      unfold yintCond
      rw [mathPi_eq_pi, ha]
      left
      constructor <;> [linarith; linarith]
    refine ⟨⟨by rw [hangle, ha]; linarith, by rw [hangle, ha]; linarith⟩, ?_, ?_, ?_⟩
    · intro _
      rw [hyint, if_pos hyc]
      rfl
    · intro hc
      exact absurd hbr hc
    · right
      rw [hyint, if_pos hyc]
      rfl
  · -- arccos branch
    have hle : |x1 - x0| ≤ |y1 - y0| := not_lt.1 hbr
    have ha : lineAngle [x0, y0, x1, y1] =
        Real.arccos ((x1 - x0) / lineLength [x0, y0, x1, y1]) := by
      unfold lineAngle
      rw [if_neg]
      · simp
      · simpa using hbr
    have hz2 : ((x1 - x0) / lineLength [x0, y0, x1, y1]) ^ 2 ≤ 1 / 2 := by
      rw [div_pow, hL2, div_le_iff hsum]
      have hsq : (x1 - x0) ^ 2 ≤ (y1 - y0) ^ 2 := sq_le_sq.2 hle
      linarith
    obtain ⟨hlo, hhi⟩ := arcsin_between_of_sq_le_half _ hz2
    have harc : Real.arccos ((x1 - x0) / lineLength [x0, y0, x1, y1]) =
        Real.pi / 2 - Real.arcsin ((x1 - x0) / lineLength [x0, y0, x1, y1]) :=
      Real.arccos_eq_pi_div_two_sub_arcsin _
    have hxc : xintCond (lineAngle [x0, y0, x1, y1]) := by
      unfold xintCond
      rw [mathPi_eq_pi, ha, harc]
      constructor <;> [linarith; linarith]
    refine ⟨⟨by rw [hangle, ha, harc]; linarith, by rw [hangle, ha, harc]; linarith⟩,
      ?_, ?_, ?_⟩
    · intro hc
      exact absurd hc hbr
    · intro _
      rw [hxint, if_pos hxc]
      rfl
    · left
      rw [hxint, if_pos hxc]
      rfl

/-- Witness for C9 at the horizontal segment `(0, 5, 10, 5)`. -/
theorem analyseOne_angle_range_and_intercepts_witness :
    ((10 : ℝ) ≠ 0 ∨ (5 : ℝ) ≠ 5) ∧
    ((-(Real.pi / 4) < (analyseOne 0 [0, 5, 10, 5]).angle ∧
      (analyseOne 0 [0, 5, 10, 5]).angle ≤ 3 * Real.pi / 4) ∧
     (|(10 : ℝ) - 0| > |(5 : ℝ) - 5| → (analyseOne 0 [0, 5, 10, 5]).yint.isSome) ∧
     (¬ |(10 : ℝ) - 0| > |(5 : ℝ) - 5| → (analyseOne 0 [0, 5, 10, 5]).xint.isSome) ∧
     ((analyseOne 0 [0, 5, 10, 5]).xint.isSome ∨
      (analyseOne 0 [0, 5, 10, 5]).yint.isSome)) :=
  ⟨Or.inl (by norm_num),
   analyseOne_angle_range_and_intercepts 0 0 5 10 5 (Or.inl (by norm_num))⟩

/-- C1 (code bug): the adjacency judgement is *not* the projection-or-
endpoint-proximity test the specification states.  The candidate
`(100,100,200,100)` is nowhere near the cluster `{(0,0,10,0)}` under
gap `1` — the spec's test (a)-or-(b), embodied verbatim in
`specLineGroupAndSegmentAdjacent`, rejects it — yet the source's
`lineGroupAndSegmentAdjacent` accepts it, because its second and fourth
endpoint checks read `baseGroupBounds.slice(2, 2)` (an empty array,
instead of the intended end point `slice(2, 4)`), making `vectorDistance`
return `null`, which compares `null <= gap` as `0 <= gap`: the function
accepts every candidate whenever the gap is non-negative. -/
theorem lineGroupAndSegmentAdjacent_contradicts_spec :
    lineGroupAndSegmentAdjacent [seg0_0_10_0] seg100_100_200_100 1 ∧
    ¬ specLineGroupAndSegmentAdjacent [seg0_0_10_0] seg100_100_200_100 1 := by
  constructor
  · exact lineGroupAndSegmentAdjacent_of_nonneg_gap _ _ 1 (by norm_num)
  · rw [specAdjacent_of_bounds _ _ _ _ bounds_seg0]
    simp only [seg100_100_200_100, List.getD_cons_zero, List.getD_cons_succ,
      show jsSlice [(0:ℝ), 0, 10, 0] 0 2 = [0, 0] from rfl,
      show jsSlice [(0:ℝ), 0, 10, 0] 2 4 = [10, 0] from rfl,
      show jsSlice [(100:ℝ), 100, 200, 100] 0 2 = [100, 100] from rfl,
      show jsSlice [(100:ℝ), 100, 200, 100] 2 4 = [200, 100] from rfl,
      vectorDistance_pair, jsLeNum, Option.getD_some]
    intro h
    rcases h with h | h | h | h | h | h
    · rcases h.1 with ⟨h1, _⟩
      norm_num [line2dProjectPoint, vector2dProject, space1dHasPoint] at h1
    · rcases h.1 with ⟨h1, _⟩
      norm_num [line2dProjectPoint, vector2dProject, space1dHasPoint] at h1
    · exact one_lt_sqrt_of_one_lt _ (by norm_num) h
    · exact one_lt_sqrt_of_one_lt _ (by norm_num) h
    · exact one_lt_sqrt_of_one_lt _ (by norm_num) h
    · exact one_lt_sqrt_of_one_lt _ (by norm_num) h

/-- C6 (amended): neither entry point validates its tolerances: there is
no failure path at all, and non-positive `rtol`, `dtol`, `dtolp` are
processed like any other values — on the one-segment input `(0,0,10,0)`
both entry points return `[[0,0,10,0]]` for *every* choice of the three
tolerances, positive or not. -/
theorem consolidate_no_tolerance_validation (rtol dtol dtolp : ℝ) :
    consolidateLinesSchemed [seg0_0_10_0] rtol dtol dtolp = [[0, 0, 10, 0]] ∧
    consolidateLines [[0, 0, 10, 0]] rtol dtol dtolp = [[0, 0, 10, 0]] := by
  refine ⟨consolidateLinesSchemed_seg0_any_tol rtol dtol dtolp, ?_⟩
  unfold consolidateLines
  rw [analyseLines_0_0_10_0]
  exact consolidateLinesSchemed_seg0_any_tol rtol dtol dtolp

/-- C6 (counterexample): with the non-positive tolerances `rtol = 0`,
`dtol = -1`, `dtolp = 0`, both entry points still process the input and
produce an output sequence instead of failing fast. -/
theorem consolidate_nonpositive_tolerances_not_rejected :
    consolidateLinesSchemed [seg0_0_10_0] 0 (-1) 0 = [[0, 0, 10, 0]] ∧
    consolidateLines [[0, 0, 10, 0]] 0 (-1) 0 = [[0, 0, 10, 0]] := by
  refine ⟨consolidateLinesSchemed_seg0_any_tol 0 (-1) 0, ?_⟩
  unfold consolidateLines
  rw [analyseLines_0_0_10_0]
  exact consolidateLinesSchemed_seg0_any_tol 0 (-1) 0

/-- C7: slope-length grouping of two equal-angle segments of lengths `10`
and `15` separates them at `dtolp = 0.1` (`|10-15| = 5` is not below
`0.1 * 15 = 1.5`) and joins them at `dtolp = 0.4` (`5 < 0.4 * 15 = 6`),
the match predicate being an angle difference strictly below `rtol`
together with `|lenA - lenB| < dtolp * max |lenA| |lenB|`. -/
theorem slopeLengthGrouping_scenario (rtol dtol : ℝ) (h : 0 < rtol) :
    (∀ a b t : ℝ, scalarWithinTolerance a b t ↔ |b - a| < max |a| |b| * t) ∧
    consolidateLinesSchemedBySlope [seg0_0_10_0, seg0_0_15_0] rtol dtol 0.1 =
      [[seg0_0_10_0], [seg0_0_15_0]] ∧
    consolidateLinesSchemedBySlope [seg0_0_10_0, seg0_0_15_0] rtol dtol 0.4 =
      [[seg0_0_10_0, seg0_0_15_0]] := by
  refine ⟨fun a b t => Iff.rfl, ?_, ?_⟩
  · unfold consolidateLinesSchemedBySlope
    apply groupLines_pair_neg
    intro hex
    rcases hex with ⟨m, hm, hmatch⟩
    rw [List.mem_singleton] at hm
    subst hm
    have h2 := hmatch.2
    rw [scalarWithinTolerance] at h2
    unfold seg0_0_10_0 seg0_0_15_0 at h2
    norm_num at h2
  · unfold consolidateLinesSchemedBySlope
    apply groupLines_pair_pos
    refine ⟨seg0_0_10_0, List.mem_singleton_self _, ?_, ?_⟩
    · unfold seg0_0_10_0 seg0_0_15_0
      simpa using h
    · rw [scalarWithinTolerance]
      unfold seg0_0_10_0 seg0_0_15_0
      norm_num

/-- Witness for C7 at `rtol = 1`, `dtol = 0`. -/
theorem slopeLengthGrouping_scenario_witness :
    0 < (1 : ℝ) ∧
    ((∀ a b t : ℝ, scalarWithinTolerance a b t ↔ |b - a| < max |a| |b| * t) ∧
     consolidateLinesSchemedBySlope [seg0_0_10_0, seg0_0_15_0] 1 0 0.1 =
       [[seg0_0_10_0], [seg0_0_15_0]] ∧
     consolidateLinesSchemedBySlope [seg0_0_10_0, seg0_0_15_0] 1 0 0.4 =
       [[seg0_0_10_0, seg0_0_15_0]]) :=
  ⟨by norm_num, slopeLengthGrouping_scenario 1 0 (by norm_num)⟩

/-- C8: annotating the horizontal segment `(0,5,10,5)` yields angle `0`
and y-intercept `5` with no x-intercept; annotating the vertical segment
`(5,0,5,10)` yields angle `π/2` and x-intercept `5` with no
y-intercept (both of length `10`, at rank `0`). -/
theorem analyseLines_horizontal_vertical_eval :
    analyseLines [[0, 5, 10, 5]] = [⟨0, 10, [0, 5, 10, 5], none, some 5, 0⟩] ∧
    analyseLines [[5, 0, 5, 10]] = [⟨Real.pi / 2, 10, [5, 0, 5, 10], some 5, none, 0⟩] := by
  constructor
  · have h := analyseOne_horizontal 0 0 5 10 (by norm_num)
    simp only [analyseLines, List.enum, List.enumFrom, List.map_cons, List.map_nil]
    rw [h]
    norm_num
  · have h := analyseOne_vertical 0 5 0 10 (by norm_num)
    simp only [analyseLines, List.enum, List.enumFrom, List.map_cons, List.map_nil]
    rw [h]
    norm_num

/-- C2 (code bug): consolidating the raw segments `(0,0,10,0)` and
`(12,0,20,0)` with `dtol = 1` (and `rtol = dtolp = 1`) does *not* leave
them separate: the 2-unit gap exceeds the tolerance, but the broken
endpoint checks of `lineGroupAndSegmentAdjacent` (see
`lineGroupAndSegmentAdjacent_contradicts_spec`) merge them anyway, and
the entry point returns the single spanning segment `(0,0,20,0)`. -/
theorem consolidate_scenarioB_merges :
    consolidateLines [[0, 0, 10, 0], [12, 0, 20, 0]] 1 1 1 = [[0, 0, 20, 0]] := by
  unfold consolidateLines
  rw [analyseLines_scenarioAB]
  unfold consolidateLinesSchemed
  have hb : bigLinesOf [seg0_0_10_0, seg12_0_20_0] 1 1 = [(3, [0, 0, 20, 0])] := by
    unfold bigLinesOf
    rw [adjacencyGroupsAll_scenarioAB,
      show [seg0_0_10_0, seg12_0_20_0].length = 2 from rfl]
    simp only [List.foldl_cons, List.foldl_nil]
    unfold pushBigLine
    rw [bigLineOfGroup_scenarioAB]
    rfl
  rw [hb]
  rfl

/-- C3 (code bug): the final output is *not* ordered by descending
aggregateRank.  On `(0,0,10,0)` followed by three copies of
`(0,5,10,5)` (tolerances `1`), the pipeline produces two clusters whose
synthesized rank/line pairs are, in creation order, rank `4` then rank
`6`; the comparator `function (a, b) { return a["rank"] < b["rank"]; }`
returns a boolean — never a negative number — so the sort leaves the
list in creation order (see `jsSortRankPairs`), and the first output
segment has the *smaller* aggregate rank. -/
theorem consolidate_output_not_rank_sorted :
    bigLinesOf [seg0_0_10_0, seg0_5_10_5 1, seg0_5_10_5 2, seg0_5_10_5 3] 1 1 =
      [(4, [0, 0, 10, 0]), (6, [0, 5, 10, 5])] ∧
    consolidateLinesSchemed
        [seg0_0_10_0, seg0_5_10_5 1, seg0_5_10_5 2, seg0_5_10_5 3] 1 1 1 =
      [[0, 0, 10, 0], [0, 5, 10, 5]] := by
  have hb : bigLinesOf
      [seg0_0_10_0, seg0_5_10_5 1, seg0_5_10_5 2, seg0_5_10_5 3] 1 1 =
      [(4, [0, 0, 10, 0]), (6, [0, 5, 10, 5])] := by
    unfold bigLinesOf
    rw [adjacencyGroupsAll_rankDemo,
      show [seg0_0_10_0, seg0_5_10_5 1, seg0_5_10_5 2, seg0_5_10_5 3].length = 4
        from rfl]
    simp only [List.foldl_cons, List.foldl_nil]
    unfold pushBigLine
    rw [bigLineOfGroup_seg0_four, bigLineOfGroup_seg5_triple]
    rfl
  constructor
  · exact hb
  · unfold consolidateLinesSchemed
    rw [hb]
    rfl

/-- C4 (amended): annotation never fails and never skips: every input
segment — including zero-length ones — yields exactly one annotated
segment that keeps the input's coordinates and position, and that flows
into downstream grouping unchanged.  (In JS a zero-length segment gets a
`NaN` angle from `0/0` and no intercepts; nothing rejects it.) -/
theorem analyseLines_never_rejects (lines : List (List ℝ)) :
    (analyseLines lines).length = lines.length ∧
    (analyseLines lines).map (fun s => s.coordinates) = lines :=
  ⟨analyseLines_length lines, analyseLines_coordinates lines⟩

/-- C4 (counterexample): on the zero-length segment `(0,0,0,0)` the
annotator does not fail and does not skip: it emits exactly one annotated
segment, still carrying the degenerate coordinates. -/
theorem analyseLines_zero_length_not_rejected :
    (analyseLines [[0, 0, 0, 0]]).length = 1 ∧
    (analyseLines [[0, 0, 0, 0]]).map (fun s => s.coordinates) = [[0, 0, 0, 0]] :=
  ⟨rfl, rfl⟩

/-- C5: for every input sequence of annotated segments, the collinearity
groups form a partition of the input: the multiset union (flattening) of
all groups is a permutation of the input — each segment appears exactly
once, with no duplication and no omission — and every group is
non-empty. -/
theorem collinearityGroups_partition (schemedLines : List SchemedLine) (rtol dtol : ℝ) :
    (collinearityGroups schemedLines rtol dtol).flatten.Perm schemedLines ∧
    ∀ g ∈ collinearityGroups schemedLines rtol dtol, g ≠ [] :=
  ⟨groupLines_flatten_perm _ _, groupLines_ne_nil _ _⟩

/-- C10: consolidation never increases the segment count: both
`consolidateLinesSchemed` and the raw entry point `consolidateLines`
return at most as many segments as they are given (each output segment
coming from a distinct non-empty adjacency cluster of the input), and the
empty input yields the empty output. -/
theorem consolidate_output_count (schemedLines : List SchemedLine)
    (lines : List (List ℝ)) (rtol dtol dtolp : ℝ) :
    (consolidateLinesSchemed schemedLines rtol dtol dtolp).length ≤ schemedLines.length ∧
    (consolidateLines lines rtol dtol dtolp).length ≤ lines.length ∧
    consolidateLines [] rtol dtol dtolp = [] := by
  have key : ∀ (ls : List SchemedLine),
      (consolidateLinesSchemed ls rtol dtol dtolp).length ≤ ls.length := by
    intro ls
    have h1 : (consolidateLinesSchemed ls rtol dtol dtolp).length =
        (bigLinesOf ls rtol dtol).length := by
      simp [consolidateLinesSchemed, jsSortRankPairs]
    have h2 : (bigLinesOf ls rtol dtol).length ≤
        (adjacencyGroupsAll ls rtol dtol).length := by
      unfold bigLinesOf
      simpa using foldl_pushBigLine_length_le ls.length
        (adjacencyGroupsAll ls rtol dtol) []
    have h3 := adjacencyGroupsAll_length_le ls rtol dtol
    omega
  refine ⟨key schemedLines, ?_, rfl⟩
  have := key (analyseLines lines)
  rw [analyseLines_length] at this
  exact this

end Docvision
